import Mathlib

/-!
Verification development for the incremental ISO-BMFF (MP4) media parser of
this repository.  The repository checkout carries only the parser's unit
tests (`mp4_media_parser_unittest.cc`); the parser implementation itself is
absent, so the engine, box reader, container model, fragment index and
decryption coordinator below are modelled from the specification document
(sections 2-7) and exercised against the observable behaviour fixed by the
unit tests (stream counts, sample counts, pixel-aspect resolution, flush
semantics, CENC handling, error terminality).
-/

namespace MP4Model

/-- Big-endian value of the first `k` bytes of a byte list. -/
def beN (k : Nat) (bs : List Nat) : Nat :=
  (bs.take k).foldl (fun a b => a * 256 + b) 0

/-- Big-endian 4-byte encoding of a natural number (mod 2^32). -/
def enc4 (n : Nat) : List Nat :=
  [n / 16777216 % 256, n / 65536 % 256, n / 256 % 256, n % 256]

/-- Big-endian 2-byte encoding of a natural number (mod 2^16). -/
def enc2 (n : Nat) : List Nat :=
  [n / 256 % 256, n % 256]

-- Four-character box type codes, as the 32-bit big-endian value of their
-- ASCII spelling.
def cFTYP : Nat := 0x66747970
def cMOOV : Nat := 0x6d6f6f76
def cMOOF : Nat := 0x6d6f6f66
def cMDAT : Nat := 0x6d646174
def cTRAK : Nat := 0x7472616b
def cTKHD : Nat := 0x746b6864
def cHDLR : Nat := 0x68646c72
def cSTSD : Nat := 0x73747364
def cAVC1 : Nat := 0x61766331
def cMP4A : Nat := 0x6d703461
def cPASP : Nat := 0x70617370
def cSINF : Nat := 0x73696e66
def cSTBL : Nat := 0x7374626c
def cTRAF : Nat := 0x74726166
def cTFHD : Nat := 0x74666864
def cTRUN : Nat := 0x7472756e
def cSENC : Nat := 0x73656e63
def cSAIZ : Nat := 0x7361697a
def cSAIO : Nat := 0x7361696f
def cPSSH : Nat := 0x70737368

/-- Result of attempting to read one top-level box from the front of the
engine's buffer.  `needMore` signals truncation ("wait for more bytes");
`malformed` signals a fatal structural violation. -/
inductive ReadBox where
  | needMore
  | malformed
  | box (typ : Nat) (payload : List Nat) (rest : List Nat)
deriving DecidableEq

/-- Modelled from the spec: the Box Reader contract (section 4.1) at the top
level of the incremental stream.  A box is a 4-byte big-endian size, a
4-byte type tag, an optional 64-bit extended size (size32 = 1).  Fewer than
8 (or 16) buffered bytes where a header is expected, or a body not yet fully
buffered, is truncation, not corruption; a declared size smaller than the
header is malformed.  A zero size means "extends to the end of the file",
which is undecidable for an incremental stream and is treated as malformed
at the top level (it is honoured inside completed parents, see
`readChildrenF`). -/
def readBoxAt (bs : List Nat) : ReadBox :=
  if bs.length < 8 then .needMore
  else if beN 4 bs = 1 then
    if bs.length < 16 then .needMore
    else if beN 8 (bs.drop 8) < 16 then .malformed
    else if bs.length < beN 8 (bs.drop 8) then .needMore
    else
      .box (beN 4 (bs.drop 4)) ((bs.drop 16).take (beN 8 (bs.drop 8) - 16))
        (bs.drop (beN 8 (bs.drop 8)))
  else if beN 4 bs < 8 then .malformed
  else if bs.length < beN 4 bs then .needMore
  else
    .box (beN 4 (bs.drop 4)) ((bs.drop 8).take (beN 4 bs - 8))
      (bs.drop (beN 4 bs))

/-- Modelled from the spec: the Box Reader's bounded child walk (section
4.1) over the complete payload of a parent box, fuelled by the payload
length (each child consumes at least 8 bytes, so the fuel is sufficient).
A zero declared size means the child extends to the end of its parent (the
single-box-fills-parent convention); truncation inside a completed parent is
a structural violation. -/
def readChildrenF : Nat → List Nat → Option (List (Nat × List Nat))
  | _, [] => some []
  | 0, _ => none
  | f + 1, bs =>
    if bs.length < 8 then none
    else
      let size32 := beN 4 bs
      let typ := beN 4 (bs.drop 4)
      if size32 = 0 then some [(typ, bs.drop 8)]
      else if size32 = 1 then
        if bs.length < 16 then none
        else
          let sz := beN 8 (bs.drop 8)
          if sz < 16 then none
          else if bs.length < sz then none
          else
            match readChildrenF f (bs.drop sz) with
            | none => none
            | some rest => some ((typ, (bs.drop 16).take (sz - 16)) :: rest)
      else if size32 < 8 then none
      else if bs.length < size32 then none
      else
        match readChildrenF f (bs.drop size32) with
        | none => none
        | some rest => some ((typ, (bs.drop 8).take (size32 - 8)) :: rest)

/-- Walk the children of a completed parent payload. -/
def readChildren (bs : List Nat) : Option (List (Nat × List Nat)) :=
  readChildrenF bs.length bs

/-- First child of a given box type, if any. -/
def findBox (t : Nat) (cs : List (Nat × List Nat)) : Option (List Nat) :=
  (cs.find? (fun c => c.1 == t)).map (fun c => c.2)

/-- Per-track protection metadata: key identifier and per-sample IV size. -/
structure ProtInfo where
  kid : List Nat
  ivSize : Nat
deriving DecidableEq

/-- Track descriptor (the codec-agnostic stream descriptor of section 4.3):
identifier, media kind, resolved pixel aspect for video, protection
metadata, resolved content key (if a key source supplied one), opaque EME
init data from the protection-system-specific header, and the progressive
sample-size table when present. -/
structure Track where
  id : Nat
  video : Bool
  pixelWidth : Nat
  pixelHeight : Nat
  prot : Option ProtInfo
  key : Option (List Nat)
  emeInitData : List Nat
  stbl : List Nat
deriving DecidableEq

/-- Modelled from the spec: pixel-aspect-ratio precedence of section 4.3.
(1) a pasp box's spacings win outright; (2) else non-zero codec-config
sample-aspect fields; (3) else both default to 1. -/
def resolvePixelAspect (pasp : Option (Nat × Nat)) (sarW sarH : Nat) :
    Nat × Nat :=
  match pasp with
  | some p => p
  | none => if sarW ≠ 0 ∧ sarH ≠ 0 then (sarW, sarH) else (1, 1)

/-- Resolved per-sample encryption descriptor: initialization vector plus
subsample (clear length, encrypted length) pairs. -/
structure EncInfo where
  iv : List Nat
  subs : List (Nat × Nat)
deriving DecidableEq

/-- Where a pending sample's encryption descriptor comes from: no
protection, the inline sample-encryption (senc) form, or the auxiliary-info
form (offset and length of the record inside the media-data payload). -/
inductive EncSrc where
  | clear
  | senc (e : EncInfo)
  | aux (off len : Nat)
deriving DecidableEq

/-- One indexed sample awaiting its media-data bytes: target track, byte
range inside the media-data payload, IV size for parsing deferred aux
records, encryption source, and the resolved track key (none when the track
is unprotected or no key was resolved). -/
structure PendingSample where
  trackId : Nat
  off : Nat
  size : Nat
  ivSize : Nat
  enc : EncSrc
  key : Option (List Nat)
deriving DecidableEq

/-- Consumer-visible delivery events: the stream-info callback (once, with
every track's descriptor) and the per-sample callback (payload after any
decryption, and whether decryption was applied). -/
inductive Event where
  | streamInfo (tracks : List Track)
  | sample (trackId : Nat) (payload : List Nat) (decrypted : Bool)
deriving DecidableEq

/-- Modelled from the spec: the external key-source collaborator (section
6): fetch keys for a protection-system payload, resolve key bytes for a key
identifier. -/
structure KeySrc where
  fetchKeys : List Nat → Bool
  getKey : List Nat → Option (List Nat)

/-- Modelled from the spec: keystream byte of the stream-cipher transform of
the Decryption Coordinator (section 4.5), as a function of key, IV and byte
position. -/
def ksByte (key iv : List Nat) (i : Nat) : Nat :=
  (key.getD (i % max key.length 1) 0 + iv.getD (i % max iv.length 1) 0 + i) % 256

/-- XOR a byte region against the keystream starting at position `start`. -/
def decRegion (key iv : List Nat) (start : Nat) (bytes : List Nat) :
    List Nat :=
  (List.range bytes.length).map
    (fun i => Nat.xor (bytes.getD i 0) (ksByte key iv (start + i)))

/-- Modelled from the spec: subsample decryption (section 4.5) — clear
regions pass through, encrypted regions are transformed; bytes beyond the
listed pairs pass through. -/
def cencSub (key iv : List Nat) : List (Nat × Nat) → Nat → List Nat →
    List Nat
  | [], _, bytes => bytes
  | (c, e) :: ps, k, bytes =>
    bytes.take c ++ decRegion key iv k ((bytes.drop c).take e) ++
      cencSub key iv ps (k + e) (bytes.drop (c + e))

/-- Modelled from the spec: the Common Encryption transform — honour the
subsample map when present, else treat the whole payload as one encrypted
region. -/
def applyCenc (key : List Nat) (e : EncInfo) (bytes : List Nat) : List Nat :=
  match e.subs with
  | [] => decRegion key e.iv 0 bytes
  | ps => cencSub key e.iv ps 0 bytes

/-- Read `n` big-endian 16-bit (clear, encrypted) subsample pairs. -/
def readPairs : Nat → List Nat → Option (List (Nat × Nat))
  | 0, _ => some []
  | n + 1, bs =>
    if bs.length < 4 then none
    else
      match readPairs n (bs.drop 4) with
      | none => none
      | some ps => some ((beN 2 bs, beN 2 (bs.drop 2)) :: ps)

/-- Parse one encryption-descriptor record (IV, subsample count, pairs) that
must occupy exactly the given byte range — the shared shape both the senc
form and the auxiliary-info form resolve to. -/
def parseEncRecord (ivSize : Nat) (bs : List Nat) : Option EncInfo :=
  if bs.length < ivSize + 2 then none
  else
    let cnt := beN 2 (bs.drop ivSize)
    if bs.length ≠ ivSize + 2 + 4 * cnt then none
    else
      match readPairs cnt (bs.drop (ivSize + 2)) with
      | none => none
      | some ps => some ⟨bs.take ivSize, ps⟩

/-- Sequentially parse `n` encryption records from a sample-encryption box
payload, consuming it exactly. -/
def parseSencRecs (ivSize : Nat) : Nat → List Nat → Option (List EncInfo)
  | 0, bs => if bs = [] then some [] else none
  | n + 1, bs =>
    if bs.length < ivSize + 2 then none
    else
      let cnt := beN 2 (bs.drop ivSize)
      if bs.length < ivSize + 2 + 4 * cnt then none
      else
        match readPairs cnt (bs.drop (ivSize + 2)) with
        | none => none
        | some ps =>
          match parseSencRecs ivSize n (bs.drop (ivSize + 2 + 4 * cnt)) with
          | none => none
          | some rest => some (⟨bs.take ivSize, ps⟩ :: rest)

/-- Read `n` big-endian 32-bit values. -/
def readNats : Nat → List Nat → Option (List Nat)
  | 0, _ => some []
  | n + 1, bs =>
    if bs.length < 4 then none
    else
      match readNats n (bs.drop 4) with
      | none => none
      | some vs => some (beN 4 bs :: vs)

/-- Starting offsets of consecutive ranges of the given sizes from `base`. -/
def cumOffsets (base : Nat) : List Nat → List Nat
  | [] => []
  | s :: ss => base :: cumOffsets (base + s) ss

/-- Modelled from the spec: decoding of a visual sample entry — fixed fields
(coded width, coded height, the codec configuration record's two
sample-aspect fields), then child boxes (optional pasp, optional protection
box carrying IV size and key identifier).  The pixel aspect is resolved here
with the precedence of section 4.3 via `resolvePixelAspect`. -/
def decodeVisualEntry (bs : List Nat) :
    Option (Nat × Nat × Option ProtInfo) :=
  if bs.length < 16 then none
  else
    let sarW := beN 4 (bs.drop 8)
    let sarH := beN 4 (bs.drop 12)
    match readChildren (bs.drop 16) with
    | none => none
    | some cs =>
      let pasp :=
        match findBox cPASP cs with
        | some p => if p.length = 8 then some (beN 4 p, beN 4 (p.drop 4))
                    else none
        | none => none
      let prot :=
        match findBox cSINF cs with
        | some p =>
          if p.length < 2 then none
          else some ⟨(p.drop 2).take (p.getD 1 0), p.getD 0 0⟩
        | none => none
      let pa := resolvePixelAspect pasp sarW sarH
      some (pa.1, pa.2, prot)

/-- Decode an audio sample entry: only the optional protection box. -/
def decodeAudioEntry (bs : List Nat) : Option (Option ProtInfo) :=
  match readChildren bs with
  | none => none
  | some cs =>
    match findBox cSINF cs with
    | some p =>
      if p.length < 2 then none
      else some (some ⟨(p.drop 2).take (p.getD 1 0), p.getD 0 0⟩)
    | none => some none

/-- Modelled from the spec: the Track/Stream Info Builder (section 4.3),
converting a decoded trak box (track header, handler, sample description,
optional progressive sample-size table) into a Track descriptor. -/
def decodeTrak (bs : List Nat) : Option Track :=
  match readChildren bs with
  | none => none
  | some cs =>
    match findBox cTKHD cs, findBox cHDLR cs, findBox cSTSD cs with
    | some tk, some _hd, some sd =>
      if tk.length < 4 then none
      else
        let tid := beN 4 tk
        let stbl :=
          match findBox cSTBL cs with
          | some sb =>
            if sb.length < 4 then none
            else
              let cnt := beN 4 sb
              if sb.length = 4 + 4 * cnt then readNats cnt (sb.drop 4)
              else none
          | none => some []
        match stbl with
        | none => none
        | some sizes =>
          match readChildren sd with
          | none => none
          | some entries =>
            match entries with
            | [] => none
            | (et, ep) :: _ =>
              if et = cAVC1 then
                match decodeVisualEntry ep with
                | none => none
                | some (pw, ph, prot) =>
                  some ⟨tid, true, pw, ph, prot, none, [], sizes⟩
              else if et = cMP4A then
                match decodeAudioEntry ep with
                | none => none
                | some prot => some ⟨tid, false, 1, 1, prot, none, [], sizes⟩
              else none
    | _, _, _ => none

/-- Collect the trak children of a moov. -/
def decodeTraks : List (Nat × List Nat) → Option (List Track)
  | [] => some []
  | (t, p) :: cs =>
    if t = cTRAK then
      match decodeTrak p, decodeTraks cs with
      | some tr, some rest => some (tr :: rest)
      | _, _ => none
    else decodeTraks cs

/-- Concatenated payloads of all pssh (protection-system-specific header)
children of a moov: the opaque EME init data. -/
def psshOf (cs : List (Nat × List Nat)) : List Nat :=
  (cs.filter (fun c => c.1 == cPSSH)).foldl (fun a c => a ++ c.2) []

/-- Modelled from the spec: the eagerly-decoded progressive sample index
(section 4.4): each track's sample-size table becomes one run of
consecutive byte ranges in the single media-data payload. -/
def progOf : List Track → Nat → List PendingSample
  | [], _ => []
  | t :: ts, base =>
    ((cumOffsets base t.stbl).zip t.stbl).map
        (fun p => ⟨t.id, p.1, p.2, 0, .clear, none⟩) ++
      progOf ts (base + t.stbl.foldl (fun a b => a + b) 0)

/-- Modelled from the spec: moov processing.  Decodes each trak, gathers the
protection-system headers, performs the single key-retrieval request against
the key-source collaborator (soft failure: a missing or unsuccessful key
source leaves keys unresolved without failing the parse, section 4.5), and
builds the eager progressive sample index. -/
def processMoov (ks : Option KeySrc) (payload : List Nat) :
    Option (List Track × List PendingSample) :=
  match readChildren payload with
  | none => none
  | some cs =>
    match decodeTraks cs with
    | none => none
    | some traks =>
      let pssh := psshOf cs
      let fetched :=
        match ks with
        | none => false
        | some k => k.fetchKeys pssh
      let resolved := traks.map (fun t =>
        match t.prot with
        | none => t
        | some pi =>
          let key :=
            match ks, fetched with
            | some k, true => k.getKey pi.kid
            | _, _ => none
          { t with key := key, emeInitData := pssh })
      some (resolved, progOf resolved 0)

/-- Modelled from the spec: decoding a track fragment (section 4.4): the
fragment header supplies target track, base data offset and default sample
size; the run supplies the count and flag-controlled per-sample size
overrides; encryption metadata arrives either inline (senc) or as an
auxiliary-info table (saiz sizes + saio offset into the media data). -/
def decodeTraf (tracks : List Track) (bs : List Nat) :
    Option (List PendingSample) :=
  match readChildren bs with
  | none => none
  | some cs =>
    match findBox cTFHD cs, findBox cTRUN cs with
    | some th, some tr =>
      if th.length ≠ 12 then none
      else
        let tid := beN 4 th
        let baseOff := beN 4 (th.drop 4)
        let defSize := beN 4 (th.drop 8)
        match tracks.find? (fun t => t.id == tid) with
        | none => none
        | some track =>
          let ivSize :=
            match track.prot with
            | some pi => pi.ivSize
            | none => 0
          let key :=
            match track.prot with
            | some _ => track.key
            | none => none
          if tr.length < 5 then none
          else
            let cnt := beN 4 tr
            let flags := tr.getD 4 0
            let sizes :=
              if flags % 2 = 1 then
                if tr.length = 5 + 4 * cnt then readNats cnt (tr.drop 5)
                else none
              else if tr.length = 5 then some (List.replicate cnt defSize)
              else none
            match sizes with
            | none => none
            | some szs =>
              let encs :=
                match findBox cSENC cs with
                | some sp =>
                  match parseSencRecs ivSize cnt sp with
                  | none => none
                  | some recs => some (recs.map EncSrc.senc)
                | none =>
                  match findBox cSAIZ cs, findBox cSAIO cs with
                  | some zs, some os =>
                    if zs.length = cnt ∧ os.length = 4 then
                      some (((cumOffsets (beN 4 os) zs).zip zs).map
                        (fun (p : Nat × Nat) => EncSrc.aux p.1 p.2))
                    else none
                  | _, _ => some (List.replicate cnt EncSrc.clear)
              match encs with
              | none => none
              | some es =>
                if es.length = szs.length then
                  some ((((cumOffsets baseOff szs).zip szs).zip es).map
                    (fun (p : (Nat × Nat) × EncSrc) =>
                      ⟨tid, p.1.1, p.1.2, ivSize, p.2, key⟩))
                else none
    | _, _ => none

/-- Collect and decode the traf children of a moof. -/
def decodeTrafs (tracks : List Track) :
    List (Nat × List Nat) → Option (List PendingSample)
  | [] => some []
  | (t, p) :: cs =>
    if t = cTRAF then
      match decodeTraf tracks p, decodeTrafs tracks cs with
      | some ps, some rest => some (ps ++ rest)
      | _, _ => none
    else decodeTrafs tracks cs

/-- Modelled from the spec: movie-fragment decoding — every traf's indexed
samples, in order. -/
def decodeMoof (tracks : List Track) (payload : List Nat) :
    Option (List PendingSample) :=
  match readChildren payload with
  | none => none
  | some cs => decodeTrafs tracks cs

/-- Modelled from the spec: sample delivery for one fragment whose
media-data payload `p` is fully buffered (section 4.5-4.6).  Each pending
sample's byte range must lie inside the payload; a deferred auxiliary-info
record is resolved to the same descriptor shape as the inline form; when
the track key is resolved the CENC transform is applied and the sample is
reported decrypted, otherwise the raw payload is delivered undecrypted. -/
def resolveEnc (p : List Nat) (s : PendingSample) : Option (Option EncInfo) :=
  match s.enc with
  | .clear => some none
  | .senc e => some (some e)
  | .aux aOff aLen =>
    if aOff + aLen ≤ p.length then
      match parseEncRecord s.ivSize ((p.drop aOff).take aLen) with
      | none => none
      | some e => some (some e)
    else none

/-- The delivered (payload, decrypted) pair of one sample: when the track
key is resolved and the sample carries an encryption descriptor, the CENC
transform is applied and the sample is reported decrypted; otherwise the
raw payload is delivered undecrypted. -/
def sampleOut (ei : Option EncInfo) (key : Option (List Nat))
    (raw : List Nat) : List Nat × Bool :=
  match ei, key with
  | some e, some k => (applyCenc k e raw, true)
  | _, _ => (raw, false)

/-- Modelled from the spec: sample delivery for one fragment whose
media-data payload `p` is fully buffered.  Each pending sample's byte range
must lie inside the payload; its encryption descriptor is resolved via
`resolveEnc` and its delivered payload computed via `sampleOut`. -/
def deliverGo (p : List Nat) : List PendingSample → Option (List Event)
  | [] => some []
  | s :: rest =>
    if s.off + s.size ≤ p.length then
      match resolveEnc p s with
      | none => none
      | some ei =>
        match deliverGo p rest with
        | none => none
        | some evs =>
          some (.sample s.trackId
            (sampleOut ei s.key ((p.drop s.off).take s.size)).1
            (sampleOut ei s.key ((p.drop s.off).take s.size)).2 :: evs)
    else none

/-- Engine mode: scanning at a top-level box boundary, awaiting the
media-data box of a decoded fragment, or the terminal error state. -/
inductive Mode where
  | scanning
  | expectMdat (pending : List PendingSample)
  | err
deriving DecidableEq

/-- Modelled from the spec: the Incremental Parse Engine's state (sections
3 and 4.6): mode, append-only byte buffer of not-yet-consumed input, track
descriptors once the init segment parsed, the eager progressive sample
index awaiting its media-data box, and the ordered log of delivered
callbacks.  The key-source collaborator is fixed at `Init` time and is a
parameter of the engine's operations. -/
structure PState where
  mode : Mode
  buffer : List Nat
  tracks : Option (List Track)
  progPending : List PendingSample
  events : List Event
deriving DecidableEq

/-- Transition to the terminal error state. -/
def toErr (s : PState) : PState := { s with mode := .err }

/-- Modelled from the spec: one step of the Incremental Parse Engine's state
machine (section 4.6).  In scanning mode a fully buffered top-level box is
consumed: a first moov parses the init segment and fires the stream-info
callback (a later moov is skipped, since the init segment is parsed once
per lifetime); a moof indexes a fragment and moves to awaiting its
media-data; a media-data box matching the pending progressive index
delivers the whole eager "fragment"; unknown boxes are skipped by length.
Awaiting media-data, the media-data box delivers the fragment's samples.
Structural violations move to the terminal error state; truncation leaves
the state untouched (`none` = wait for more input). -/
def step (ks : Option KeySrc) (s : PState) : Option PState :=
  match s.mode with
  | .err => none
  | .expectMdat pending =>
    match readBoxAt s.buffer with
    | .needMore => none
    | .malformed => some (toErr s)
    | .box t payload rest =>
      if t = cMDAT then
        match deliverGo payload pending with
        | some evs =>
          some { s with mode := .scanning, buffer := rest,
                        events := s.events ++ evs }
        | none => some (toErr s)
      else some (toErr s)
  | .scanning =>
    match readBoxAt s.buffer with
    | .needMore => none
    | .malformed => some (toErr s)
    | .box t payload rest =>
      if t = cMOOV then
        if s.tracks.isSome then some { s with buffer := rest }
        else
          match processMoov ks payload with
          | some (tracks, prog) =>
            some { s with buffer := rest, tracks := some tracks,
                          progPending := prog,
                          events := s.events ++ [.streamInfo tracks] }
          | none => some (toErr s)
      else if t = cMOOF then
        match s.tracks with
        | none => some (toErr s)
        | some tracks =>
          match decodeMoof tracks payload with
          | some pending =>
            some { s with buffer := rest, mode := .expectMdat pending }
          | none => some (toErr s)
      else if t = cMDAT ∧ s.progPending ≠ [] then
        match deliverGo payload s.progPending with
        | some evs =>
          some { s with buffer := rest, progPending := [],
                        events := s.events ++ evs }
        | none => some (toErr s)
      else some { s with buffer := rest }

/-- Drive the state machine as far as possible with the given fuel. -/
def drainF (ks : Option KeySrc) : Nat → PState → PState
  | 0, s => s
  | f + 1, s =>
    match step ks s with
    | none => s
    | some s2 => drainF ks f s2

/-- Drive the state machine until no further box or fragment can be
consumed.  Every productive step either consumes buffered bytes or is the
terminal move to the error state, so `buffer.length + 2` fuel always
reaches the fixpoint (proved below). -/
def drain (ks : Option KeySrc) (s : PState) : PState :=
  drainF ks (s.buffer.length + 2) s

/-- Append bytes to the engine's buffer. -/
def appendB (b : List Nat) (s : PState) : PState :=
  { s with buffer := s.buffer ++ b }

/-- Modelled from the spec: `Parse(bytes)` (section 6) — append to the
buffer and drive the machine; rejected outright in the terminal error
state, and reports failure exactly when the machine is (or ends) in the
error state. -/
def parse (ks : Option KeySrc) (s : PState) (bytes : List Nat) :
    Bool × PState :=
  if s.mode = .err then (false, s)
  else
    let s2 := drain ks (appendB bytes s)
    (decide (s2.mode ≠ .err), s2)

/-- Modelled from the spec: `Flush()` (sections 4.6 and 6) — discard all
buffered fragment-local state (the buffer and any pending fragment index)
while retaining the already-parsed track descriptors; rejected in the
terminal error state. -/
def flushP (s : PState) : Bool × PState :=
  if s.mode = .err then (false, s)
  else (true, { s with buffer := [], mode := .scanning })

/-- Scan a complete byte range for its first moov box, skipping everything
else (fuelled by the range length). -/
def loadGo (ks : Option KeySrc) :
    Nat → List Nat → Option (List Track × List PendingSample)
  | 0, _ => none
  | f + 1, bs =>
    match readBoxAt bs with
    | .box t payload rest =>
      if t = cMOOV then processMoov ks payload
      else loadGo ks f rest
    | _ => none

/-- Modelled from the spec: the initialization-segment-only entry point
(`LoadMoov`, section 6): parse just the moov from a randomly accessible
source before streaming begins, firing the stream-info callback; a no-op
when the init segment is already parsed. -/
def loadMoovP (ks : Option KeySrc) (s : PState) (bytes : List Nat) :
    Bool × PState :=
  if s.tracks.isSome then (true, s)
  else
    match loadGo ks (bytes.length + 1) bytes with
    | some (tracks, prog) =>
      (true, { s with tracks := some tracks, progPending := prog,
                      events := s.events ++ [.streamInfo tracks] })
    | none => (false, s)

/-- A freshly initialized parser (`Init`, section 6): callbacks registered
(modelled by the event log). -/
def initParser : PState :=
  ⟨.scanning, [], none, [], []⟩

/-- One consumer-driven operation on a parser instance. -/
inductive Cmd where
  | parseBytes (bytes : List Nat)
  | flush
  | loadMoov (bytes : List Nat)

/-- Execute one operation (discarding the status result). -/
def execCmd (ks : Option KeySrc) (s : PState) : Cmd → PState
  | .parseBytes b => (parse ks s b).2
  | .flush => (flushP s).2
  | .loadMoov b => (loadMoovP ks s b).2

/-- Run a whole input history from a fresh parser. -/
def runCmds (ks : Option KeySrc) (cmds : List Cmd) : PState :=
  cmds.foldl (execCmd ks) initParser

/-- Feed a list of chunks through successive `Parse` calls. -/
def foldParse (ks : Option KeySrc) (s : PState) (chunks : List (List Nat)) :
    PState :=
  chunks.foldl (fun s2 c => (parse ks s2 c).2) s

/-- Split a byte list into chunks of `n` bytes (at least 1). -/
def chunksOfF : Nat → Nat → List Nat → List (List Nat)
  | 0, _, _ => []
  | f + 1, n, bs =>
    if bs = [] then []
    else bs.take (max n 1) :: chunksOfF f n (bs.drop (max n 1))

/-- Chunking of a byte list at a fixed granularity. -/
def chunksOf (n : Nat) (bs : List Nat) : List (List Nat) :=
  chunksOfF bs.length n bs

/-- Whether an event is a stream-info callback. -/
def isSI : Event → Bool
  | .streamInfo _ => true
  | _ => false

/-- Whether an event is a sample delivery. -/
def isSample : Event → Bool
  | .sample _ _ _ => true
  | _ => false

/-- Number of stream-info callback invocations in an event log. -/
def countSI (evs : List Event) : Nat := evs.countP isSI

/-- Number of delivered samples in an event log. -/
def countSamples (evs : List Event) : Nat := evs.countP isSample

/-- The sample events of a log, in delivery order. -/
def sampleEvents (evs : List Event) : List Event := evs.filter isSample

/-- The track collection of the last stream-info callback (the test
fixture's `num_streams_`). -/
def lastTracks (evs : List Event) : List Track :=
  evs.foldl (fun a e => match e with | .streamInfo l => l | _ => a) []

/-- Reported stream count. -/
def numStreams (s : PState) : Nat := (lastTracks s.events).length

/-- Reported total sample count. -/
def numSamples (s : PState) : Nat := countSamples s.events

/-- Pixel width of the track with the given id, per the last stream-info
callback (0 when absent). -/
def trackPW (s : PState) (tid : Nat) : Nat :=
  match (lastTracks s.events).find? (fun t => t.id == tid) with
  | some t => t.pixelWidth
  | none => 0

/-- Pixel height of the track with the given id. -/
def trackPH (s : PState) (tid : Nat) : Nat :=
  match (lastTracks s.events).find? (fun t => t.id == tid) with
  | some t => t.pixelHeight
  | none => 0

/-- EME init data of the track with the given id. -/
def trackEme (s : PState) (tid : Nat) : List Nat :=
  match (lastTracks s.events).find? (fun t => t.id == tid) with
  | some t => t.emeInitData
  | none => []

/-- The unit tests' `ParseMP4File` flow: load the init segment through the
moov-only entry point, then append the whole file in fixed-size pieces. -/
def runFile (ks : Option KeySrc) (bytes : List Nat) (granularity : Nat) :
    PState :=
  foldParse ks (loadMoovP ks initParser bytes).2 (chunksOf granularity bytes)

-- ## Concrete fixtures
-- Byte-level stand-ins for the test media files, built with the format's
-- own encodings so that every byte passes through the modelled Box Reader.

/-- Serialize a box: 4-byte size, 4-byte type, payload. -/
def mkBox (t : Nat) (payload : List Nat) : List Nat :=
  enc4 (payload.length + 8) ++ enc4 t ++ payload

/-- A file-type box (skipped by the engine). -/
def fxFtyp : List Nat := mkBox cFTYP [105, 115, 111, 109]

/-- Video trak with the given sample-aspect fields and optional pasp,
protection and sample-table boxes. -/
def mkVideoTrak (tid sarW sarH : Nat) (pasp sinf stbl : List Nat) :
    List Nat :=
  mkBox cTRAK (mkBox cTKHD (enc4 tid) ++ mkBox cHDLR [1] ++
    mkBox cSTSD (mkBox cAVC1
      (enc4 640 ++ enc4 360 ++ enc4 sarW ++ enc4 sarH ++ pasp ++ sinf)) ++
    stbl)

/-- Audio trak. -/
def mkAudioTrak (tid : Nat) (stbl : List Nat) : List Nat :=
  mkBox cTRAK (mkBox cTKHD (enc4 tid) ++ mkBox cHDLR [0] ++
    mkBox cSTSD (mkBox cMP4A []) ++ stbl)

/-- A movie fragment for one track: fragment header (track, base data
offset, default sample size), run (count, flags = defaults), plus optional
encryption boxes. -/
def mkMoof (tid baseOff defSize cnt : Nat) (extra : List Nat) : List Nat :=
  mkBox cMOOF (mkBox cTRAF
    (mkBox cTFHD (enc4 tid ++ enc4 baseOff ++ enc4 defSize) ++
     mkBox cTRUN (enc4 cnt ++ [0]) ++ extra))

/-- Deterministic media payload bytes. -/
def payloadBytes (seed n : Nat) : List Nat :=
  (List.range n).map (fun i => (seed + 7 * i) % 256)

/-- Init segment of the fragmented two-track fixture
(`bear-640x360-av_frag.mp4`): video track 1 with zero sample-aspect fields
and no pasp box, audio track 2. -/
def fxMoovAV : List Nat :=
  mkBox cMOOV (mkVideoTrak 1 0 0 [] [] [] ++ mkAudioTrak 2 [])

def fxM1 : List Nat := mkMoof 1 0 1 51 []
def fxD1 : List Nat := mkBox cMDAT (payloadBytes 3 51)
def fxM2 : List Nat := mkMoof 2 0 1 50 []
def fxD2 : List Nat := mkBox cMDAT (payloadBytes 5 50)
def fxM3 : List Nat := mkMoof 1 0 1 50 []
def fxD3 : List Nat := mkBox cMDAT (payloadBytes 9 50)
def fxM4 : List Nat := mkMoof 2 0 1 50 []
def fxD4 : List Nat := mkBox cMDAT (payloadBytes 11 50)

/-- The four moof/mdat fragment pairs (51 + 50 + 50 + 50 = 201 samples). -/
def fxFragsAV : List Nat :=
  fxM1 ++ fxD1 ++ fxM2 ++ fxD2 ++ fxM3 ++ fxD3 ++ fxM4 ++ fxD4

/-- The fragmented two-track fixture: 2 streams, 201 samples. -/
def fxFragAV : List Nat := fxFtyp ++ fxMoovAV ++ fxFragsAV

/-- The same container with the init segment trailing the media data
(`bear-640x360-trailing-moov.mp4`). -/
def fxTrail : List Nat := fxFtyp ++ fxFragsAV ++ fxMoovAV

/-- A prefix of the fragmented fixture ending mid-fragment (inside the third
fragment header): two complete fragments (101 samples) precede the cut. -/
def fxFlushCut : List Nat :=
  fxFtyp ++ fxMoovAV ++ fxM1 ++ fxD1 ++ fxM2 ++ fxD2 ++ fxM3.take 10

/-- Progressive (non-fragmented) equivalent (`bear-640x360.mp4`): the moov
carries the whole per-track sample tables, followed by one media-data box
holding all 201 samples. -/
def fxProg : List Nat :=
  fxFtyp ++
  mkBox cMOOV
    (mkVideoTrak 1 0 0 [] []
      (mkBox cSTBL (enc4 101 ++ (List.range 101).foldr
        (fun _ a => enc4 1 ++ a) [])) ++
     mkAudioTrak 2
      (mkBox cSTBL (enc4 100 ++ (List.range 100).foldr
        (fun _ a => enc4 1 ++ a) []))) ++
  mkBox cMDAT (payloadBytes 13 201)

/-- Fixture with a pixel-aspect-ratio box (8, 9) under the visual sample
entry (`bear-640x360-non_square_pixel-with_pasp.mp4`). -/
def fxPasp : List Nat :=
  fxFtyp ++ mkBox cMOOV
    (mkVideoTrak 1 0 0 (mkBox cPASP (enc4 8 ++ enc4 9)) [] [])

/-- Fixture without a pasp box but with (8, 9) in the codec configuration
record's sample-aspect fields
(`bear-640x360-non_square_pixel-without_pasp.mp4`). -/
def fxNoPasp : List Nat :=
  fxFtyp ++ mkBox cMOOV (mkVideoTrak 1 8 9 [] [] [])

/-- A structurally invalid container: the completed moov declares a trak
child whose size (100) exceeds the parent's remaining bytes (8). -/
def fxBad : List Nat := mkBox cMOOV (enc4 100 ++ enc4 cTRAK)

-- ### CENC fixtures

/-- The unit tests' key id ("0123456789012345" in ASCII). -/
def kKeyId : List Nat :=
  [48, 49, 50, 51, 52, 53, 54, 55, 56, 57, 48, 49, 50, 51, 52, 53]

/-- The unit tests' 16-byte content key. -/
def kKey : List Nat :=
  [0xeb, 0xdd, 0x62, 0xf1, 0x68, 0x14, 0xd2, 0x7b,
   0x68, 0xef, 0x12, 0x2a, 0xfc, 0xe4, 0xae, 0x3c]

/-- The mocked key source of the unit tests: key fetch succeeds, and the
declared key identifier resolves to the key bytes. -/
def mockKS : KeySrc :=
  ⟨fun _ => true, fun kid => if kid == kKeyId then some kKey else none⟩

/-- Plaintext payload of protected sample `i` (2 bytes). -/
def cencPlain (i : Nat) : List Nat := [(3 * i + 1) % 256, (5 * i + 2) % 256]

/-- Per-sample initialization vector. -/
def cencIv (i : Nat) : List Nat := [i % 256, (7 * i) % 256]

/-- Per-sample subsample map: every tenth sample uses a (1 clear, 1
encrypted) split, the rest are whole-sample encrypted. -/
def cencSubsOf (i : Nat) : List (Nat × Nat) :=
  if i % 10 = 0 then [(1, 1)] else []

/-- Per-sample encryption descriptor. -/
def cencInfo (i : Nat) : EncInfo := ⟨cencIv i, cencSubsOf i⟩

/-- Ciphertext of sample `i` (the stream-cipher transform is an
involution, so encryption applies the same transform). -/
def cencCipher (i : Nat) : List Nat :=
  applyCenc kKey (cencInfo i) (cencPlain i)

/-- Serialized encryption record of sample `i` (the shared shape of the
inline and auxiliary-info forms): IV, subsample count, pairs. -/
def encRecBytes (i : Nat) : List Nat :=
  cencIv i ++ enc2 (cencSubsOf i).length ++
    (cencSubsOf i).foldr (fun p a => enc2 p.1 ++ enc2 p.2 ++ a) []

/-- Concatenated encryption records of all 82 samples. -/
def cencAuxBlock : List Nat :=
  (List.range 82).foldr (fun i a => encRecBytes i ++ a) []

/-- Concatenated ciphertexts of all 82 samples. -/
def cencCipherJoin : List Nat :=
  (List.range 82).foldr (fun i a => cencCipher i ++ a) []

/-- Protected single-track init segment: IV size 2, the tests' key id, and
a protection-system-specific header (pssh) with non-empty opaque data. -/
def fxMoovCenc : List Nat :=
  mkBox cMOOV (mkVideoTrak 1 0 0 [] (mkBox cSINF ([2, 16] ++ kKeyId)) [] ++
    mkBox cPSSH [1, 2, 3, 4, 5, 6, 7, 8])

/-- Protected fixture with inline sample-encryption (senc) metadata
(`bear-640x360-v_frag-cenc-senc.mp4`): 1 stream, 82 samples. -/
def fxCencSenc : List Nat :=
  fxFtyp ++ fxMoovCenc ++
  mkMoof 1 0 2 82 (mkBox cSENC cencAuxBlock) ++
  mkBox cMDAT cencCipherJoin

/-- Protected fixture with auxiliary-info metadata in the media-data box
(`bear-640x360-v_frag-cenc-aux.mp4`): the aux records sit at offset 0 of
the media data, the sample bytes follow them. -/
def fxCencAux : List Nat :=
  fxFtyp ++ fxMoovCenc ++
  mkMoof 1 cencAuxBlock.length 2 82
    (mkBox cSAIZ ((List.range 82).map (fun i => (encRecBytes i).length)) ++
     mkBox cSAIO (enc4 0)) ++
  mkBox cMDAT (cencAuxBlock ++ cencCipherJoin)

/-- The init-segment-only prefix of the protected fixture (the bytes before
the first fragment). -/
def fxCencInit : List Nat := fxFtyp ++ fxMoovCenc

/-- The expected decrypted delivery sequence of the protected fixtures. -/
def cencExpectedEvents : List Event :=
  (List.range 82).map (fun i => .sample 1 (cencPlain i) true)

-- ## Named pipeline states of the unit-test scenarios

/-- The Flush test's mid-stream state: the fragmented fixture fed in
512-byte pieces up to a cut inside the third fragment (no moov-only
preload, as in the unit test). -/
def flushTestMid : PState := foldParse none initParser (chunksOf 512 fxFlushCut)

/-- The Flush test's final state: flush at the cut, then re-feed the whole
file from byte offset 0. -/
def flushTestAfter : PState :=
  foldParse none (flushP flushTestMid).2 (chunksOf 512 fxFragAV)

/-- The NoMoovAfterFlush test's state after parsing the whole file. -/
def noMoovFull : PState := foldParse none initParser (chunksOf 512 fxFragAV)

/-- The NoMoovAfterFlush test's final state: flush, then feed the byte
stream that begins directly at the first fragment boundary (no init
segment present). -/
def noMoovResume : PState :=
  foldParse none (flushP noMoovFull).2 (chunksOf 512 fxFragsAV)

/-- The CencInitWithoutDecryptionSource scenario: only the init-segment
bytes appended, no fragment bytes. -/
def cencInitOnly : PState := (parse none initParser fxCencInit).2

/-- The CencWithDecryptionSourceAndAuxInMdat run. -/
def cencAuxKeyRun : PState :=
  foldParse (some mockKS) initParser (chunksOf 512 fxCencAux)

/-- The CencWithDecryptionSourceAndSenc run. -/
def cencSencKeyRun : PState :=
  foldParse (some mockKS) initParser (chunksOf 512 fxCencSenc)

-- ## Box-reader lemmas

theorem beN_append {k : Nat} {bs : List Nat} (x : List Nat)
    (h : k ≤ bs.length) : beN k (bs ++ x) = beN k bs := by
  unfold beN
  rw [List.take_append_of_le_length h]

theorem readBoxAt_box_len {bs : List Nat} {t : Nat} {p r : List Nat}
    (h : readBoxAt bs = .box t p r) : r.length + 8 ≤ bs.length := by
  unfold readBoxAt at h
  by_cases h1 : bs.length < 8
  · simp [h1] at h
  rw [if_neg h1] at h
  by_cases h2 : beN 4 bs = 1
  · rw [if_pos h2] at h
    by_cases h3 : bs.length < 16
    · simp [h3] at h
    rw [if_neg h3] at h
    by_cases h4 : beN 8 (bs.drop 8) < 16
    · simp [h4] at h
    rw [if_neg h4] at h
    by_cases h5 : bs.length < beN 8 (bs.drop 8)
    · simp [h5] at h
    rw [if_neg h5] at h
    injection h with ht hp hr
    rw [← hr, List.length_drop]
    omega
  · rw [if_neg h2] at h
    by_cases h6 : beN 4 bs < 8
    · simp [h6] at h
    rw [if_neg h6] at h
    by_cases h7 : bs.length < beN 4 bs
    · simp [h7] at h
    rw [if_neg h7] at h
    injection h with ht hp hr
    rw [← hr, List.length_drop]
    omega

theorem readBoxAt_append_box {bs : List Nat} {t : Nat} {p r : List Nat}
    (x : List Nat) (h : readBoxAt bs = .box t p r) :
    readBoxAt (bs ++ x) = .box t p (r ++ x) := by
  unfold readBoxAt at h
  by_cases h1 : bs.length < 8
  · simp [h1] at h
  rw [if_neg h1] at h
  by_cases h2 : beN 4 bs = 1
  · rw [if_pos h2] at h
    by_cases h3 : bs.length < 16
    · simp [h3] at h
    rw [if_neg h3] at h
    by_cases h4 : beN 8 (bs.drop 8) < 16
    · simp [h4] at h
    rw [if_neg h4] at h
    by_cases h5 : bs.length < beN 8 (bs.drop 8)
    · simp [h5] at h
    rw [if_neg h5] at h
    injection h with ht hp hr
    have e1 : ¬ (bs ++ x).length < 8 := by rw [List.length_append]; omega
    have e2 : beN 4 (bs ++ x) = 1 := by rw [beN_append x (by omega)]; exact h2
    have e3 : ¬ (bs ++ x).length < 16 := by rw [List.length_append]; omega
    have ed8 : (bs ++ x).drop 8 = bs.drop 8 ++ x :=
      List.drop_append_of_le_length (by omega)
    have e4 : beN 8 ((bs ++ x).drop 8) = beN 8 (bs.drop 8) := by
      rw [ed8, beN_append x (by rw [List.length_drop]; omega)]
    unfold readBoxAt
    rw [if_neg e1, if_pos e2, if_neg e3,
        if_neg (by rw [e4]; omega : ¬ beN 8 ((bs ++ x).drop 8) < 16),
        if_neg (by rw [e4, List.length_append]; omega :
          ¬ (bs ++ x).length < beN 8 ((bs ++ x).drop 8)),
        e4,
        List.drop_append_of_le_length (by omega : 4 ≤ bs.length),
        beN_append x (by rw [List.length_drop]; omega),
        List.drop_append_of_le_length (by omega : 16 ≤ bs.length),
        List.take_append_of_le_length (by rw [List.length_drop]; omega),
        List.drop_append_of_le_length (by omega : beN 8 (bs.drop 8) ≤ bs.length),
        ht, hp, hr]
  · rw [if_neg h2] at h
    by_cases h6 : beN 4 bs < 8
    · simp [h6] at h
    rw [if_neg h6] at h
    by_cases h7 : bs.length < beN 4 bs
    · simp [h7] at h
    rw [if_neg h7] at h
    injection h with ht hp hr
    have e1 : ¬ (bs ++ x).length < 8 := by rw [List.length_append]; omega
    have e2 : beN 4 (bs ++ x) = beN 4 bs := beN_append x (by omega)
    unfold readBoxAt
    rw [if_neg e1, e2, if_neg h2, if_neg h6,
        if_neg (by rw [List.length_append]; omega :
          ¬ (bs ++ x).length < beN 4 bs),
        List.drop_append_of_le_length (by omega : 4 ≤ bs.length),
        beN_append x (by rw [List.length_drop]; omega),
        List.drop_append_of_le_length (by omega : 8 ≤ bs.length),
        List.take_append_of_le_length (by rw [List.length_drop]; omega),
        List.drop_append_of_le_length (by omega : beN 4 bs ≤ bs.length),
        ht, hp, hr]

theorem readBoxAt_append_malformed {bs : List Nat} (x : List Nat)
    (h : readBoxAt bs = .malformed) : readBoxAt (bs ++ x) = .malformed := by
  unfold readBoxAt at h
  by_cases h1 : bs.length < 8
  · simp [h1] at h
  rw [if_neg h1] at h
  by_cases h2 : beN 4 bs = 1
  · rw [if_pos h2] at h
    by_cases h3 : bs.length < 16
    · simp [h3] at h
    rw [if_neg h3] at h
    by_cases h4 : beN 8 (bs.drop 8) < 16
    · have e1 : ¬ (bs ++ x).length < 8 := by rw [List.length_append]; omega
      have e2 : beN 4 (bs ++ x) = 1 := by rw [beN_append x (by omega)]; exact h2
      have e3 : ¬ (bs ++ x).length < 16 := by rw [List.length_append]; omega
      have e4 : beN 8 ((bs ++ x).drop 8) = beN 8 (bs.drop 8) := by
        rw [List.drop_append_of_le_length (by omega : 8 ≤ bs.length),
            beN_append x (by rw [List.length_drop]; omega)]
      unfold readBoxAt
      rw [if_neg e1, if_pos e2, if_neg e3, if_pos (by rw [e4]; exact h4)]
    rw [if_neg h4] at h
    by_cases h5 : bs.length < beN 8 (bs.drop 8)
    · simp [h5] at h
    rw [if_neg h5] at h
    simp at h
  · rw [if_neg h2] at h
    by_cases h6 : beN 4 bs < 8
    · have e1 : ¬ (bs ++ x).length < 8 := by rw [List.length_append]; omega
      have e2 : beN 4 (bs ++ x) = beN 4 bs := beN_append x (by omega)
      unfold readBoxAt
      rw [if_neg e1, e2, if_neg h2, if_pos h6]
    rw [if_neg h6] at h
    by_cases h7 : bs.length < beN 4 bs
    · simp [h7] at h
    rw [if_neg h7] at h
    simp at h

-- ## Engine step lemmas

theorem step_err {ks : Option KeySrc} {s : PState} (h : s.mode = .err) :
    step ks s = none := by
  unfold step
  rw [h]

theorem step_of_nil {ks : Option KeySrc} {s : PState} (h : s.buffer = []) :
    step ks s = none := by
  unfold step
  rw [h]
  cases s.mode <;> simp [readBoxAt]

theorem step_dec {ks : Option KeySrc} {s s2 : PState}
    (h : step ks s = some s2) :
    s2.buffer.length < s.buffer.length ∨
      (s2.buffer = s.buffer ∧ s2.mode = .err) := by
  unfold step at h
  cases hm : s.mode <;> rw [hm] at h <;> dsimp only at h
  case err => cases h
  case expectMdat pending =>
    cases hr : readBoxAt s.buffer <;> rw [hr] at h <;> dsimp only at h
    case needMore => cases h
    case malformed =>
      injection h with h2
      exact Or.inr ⟨by rw [← h2]; rfl, by rw [← h2]; rfl⟩
    case box t payload rest =>
      have hlen := readBoxAt_box_len hr
      by_cases ht : t = cMDAT
      · rw [if_pos ht] at h
        cases hd : deliverGo payload pending <;> rw [hd] at h <;>
          dsimp only at h
        · injection h with h2
          exact Or.inr ⟨by rw [← h2]; rfl, by rw [← h2]; rfl⟩
        · injection h with h2
          refine Or.inl ?_
          rw [← h2]
          show rest.length < s.buffer.length
          omega
      · rw [if_neg ht] at h
        injection h with h2
        exact Or.inr ⟨by rw [← h2]; rfl, by rw [← h2]; rfl⟩
  case scanning =>
    cases hr : readBoxAt s.buffer <;> rw [hr] at h <;> dsimp only at h
    case needMore => cases h
    case malformed =>
      injection h with h2
      exact Or.inr ⟨by rw [← h2]; rfl, by rw [← h2]; rfl⟩
    case box t payload rest =>
      have hlen := readBoxAt_box_len hr
      by_cases htv : t = cMOOV
      · rw [if_pos htv] at h
        by_cases hts : s.tracks.isSome
        · rw [if_pos hts] at h
          injection h with h2
          refine Or.inl ?_
          rw [← h2]
          show rest.length < s.buffer.length
          omega
        · rw [if_neg hts] at h
          cases hp : processMoov ks payload <;> rw [hp] at h <;>
            dsimp only at h
          · injection h with h2
            exact Or.inr ⟨by rw [← h2]; rfl, by rw [← h2]; rfl⟩
          · rename_i v
            cases v with
            | mk tracks prog =>
              dsimp only at h
              injection h with h2
              refine Or.inl ?_
              rw [← h2]
              show rest.length < s.buffer.length
              omega
      · rw [if_neg htv] at h
        by_cases htf : t = cMOOF
        · rw [if_pos htf] at h
          cases hts : s.tracks <;> rw [hts] at h <;> dsimp only at h
          · injection h with h2
            exact Or.inr ⟨by rw [← h2]; rfl, by rw [← h2]; rfl⟩
          · rename_i tracks
            cases hdm : decodeMoof tracks payload <;> rw [hdm] at h <;>
              dsimp only at h
            · injection h with h2
              exact Or.inr ⟨by rw [← h2]; rfl, by rw [← h2]; rfl⟩
            · injection h with h2
              refine Or.inl ?_
              rw [← h2]
              show rest.length < s.buffer.length
              omega
        · rw [if_neg htf] at h
          by_cases htd : t = cMDAT ∧ s.progPending ≠ []
          · rw [if_pos htd] at h
            cases hd : deliverGo payload s.progPending <;> rw [hd] at h <;>
              dsimp only at h
            · injection h with h2
              exact Or.inr ⟨by rw [← h2]; rfl, by rw [← h2]; rfl⟩
            · injection h with h2
              refine Or.inl ?_
              rw [← h2]
              show rest.length < s.buffer.length
              omega
          · rw [if_neg htd] at h
            injection h with h2
            refine Or.inl ?_
            rw [← h2]
            show rest.length < s.buffer.length
            omega

theorem step_append {ks : Option KeySrc} (b : List Nat) {s s2 : PState}
    (h : step ks s = some s2) :
    step ks (appendB b s) = some (appendB b s2) := by
  unfold step at h
  cases hm : s.mode <;> rw [hm] at h <;> dsimp only at h
  case err => cases h
  case expectMdat pending =>
    cases hr : readBoxAt s.buffer <;> rw [hr] at h <;> dsimp only at h
    case needMore => cases h
    case malformed =>
      injection h with h2
      unfold step
      dsimp only [appendB]
      rw [hm]
      dsimp only
      rw [readBoxAt_append_malformed b hr]
      rw [← h2] <;> try rfl
    case box t payload rest =>
      by_cases ht : t = cMDAT
      · rw [if_pos ht] at h
        cases hd : deliverGo payload pending <;> rw [hd] at h <;>
          dsimp only at h
        all_goals
          injection h with h2
          unfold step
          dsimp only [appendB]
          rw [hm]
          dsimp only
          rw [readBoxAt_append_box b hr]
          dsimp only
          rw [if_pos ht, hd]
          rw [← h2] <;> try rfl
      · rw [if_neg ht] at h
        injection h with h2
        unfold step
        dsimp only [appendB]
        rw [hm]
        dsimp only
        rw [readBoxAt_append_box b hr]
        dsimp only
        rw [if_neg ht]
        rw [← h2] <;> try rfl
  case scanning =>
    cases hr : readBoxAt s.buffer <;> rw [hr] at h <;> dsimp only at h
    case needMore => cases h
    case malformed =>
      injection h with h2
      unfold step
      dsimp only [appendB]
      rw [hm]
      dsimp only
      rw [readBoxAt_append_malformed b hr]
      rw [← h2] <;> try rfl
    case box t payload rest =>
      by_cases htv : t = cMOOV
      · rw [if_pos htv] at h
        by_cases hts : s.tracks.isSome
        · rw [if_pos hts] at h
          injection h with h2
          unfold step
          dsimp only [appendB]
          rw [hm]
          dsimp only
          rw [readBoxAt_append_box b hr]
          dsimp only
          rw [if_pos htv, if_pos hts]
          rw [← h2] <;> try rfl
        · rw [if_neg hts] at h
          cases hp : processMoov ks payload <;> rw [hp] at h <;>
            dsimp only at h
          · injection h with h2
            unfold step
            dsimp only [appendB]
            rw [hm]
            dsimp only
            rw [readBoxAt_append_box b hr]
            dsimp only
            rw [if_pos htv, if_neg hts, hp]
            rw [← h2] <;> try rfl
          · rename_i v
            cases v with
            | mk tracks prog =>
              dsimp only at h
              injection h with h2
              unfold step
              dsimp only [appendB]
              rw [hm]
              dsimp only
              rw [readBoxAt_append_box b hr]
              dsimp only
              rw [if_pos htv, if_neg hts, hp]
              rw [← h2] <;> try rfl
      · rw [if_neg htv] at h
        by_cases htf : t = cMOOF
        · rw [if_pos htf] at h
          cases hts : s.tracks <;> rw [hts] at h <;> dsimp only at h
          · injection h with h2
            unfold step
            dsimp only [appendB]
            rw [hm]
            dsimp only
            rw [readBoxAt_append_box b hr]
            dsimp only
            rw [if_neg htv, if_pos htf, hts]
            dsimp only
            rw [← h2]
            dsimp only [appendB, toErr]
            rw [hts]
          · rename_i tracks
            cases hdm : decodeMoof tracks payload <;> rw [hdm] at h <;>
              dsimp only at h
            all_goals
              injection h with h2
              unfold step
              dsimp only [appendB]
              rw [hm]
              dsimp only
              rw [readBoxAt_append_box b hr]
              dsimp only
              rw [if_neg htv, if_pos htf, hts]
              dsimp only
              rw [hdm]
              rw [← h2]
              try dsimp only [appendB, toErr]
              try rw [hts]
              try rfl
        · rw [if_neg htf] at h
          by_cases htd : t = cMDAT ∧ s.progPending ≠ []
          · rw [if_pos htd] at h
            cases hd : deliverGo payload s.progPending <;> rw [hd] at h <;>
              dsimp only at h
            all_goals
              injection h with h2
              unfold step
              dsimp only [appendB]
              rw [hm]
              dsimp only
              rw [readBoxAt_append_box b hr]
              dsimp only
              rw [if_neg htv, if_neg htf, if_pos htd, hd]
              rw [← h2] <;> try rfl
          · rw [if_neg htd] at h
            injection h with h2
            unfold step
            dsimp only [appendB]
            rw [hm]
            dsimp only
            rw [readBoxAt_append_box b hr]
            dsimp only
            rw [if_neg htv, if_neg htf, if_neg htd]
            rw [← h2] <;> try rfl

-- ## Drain lemmas

theorem drainF_succ (ks : Option KeySrc) (f : Nat) (s : PState) :
    drainF ks (f + 1) s =
      match step ks s with
      | none => s
      | some s2 => drainF ks f s2 := rfl

theorem drainF_of_stuck {ks : Option KeySrc} {s : PState} (f : Nat)
    (h : step ks s = none) : drainF ks f s = s := by
  cases f
  · rfl
  · rw [drainF_succ, h]

theorem drainF_fuel {ks : Option KeySrc} :
    ∀ f g (s : PState), s.buffer.length + 2 ≤ f →
      s.buffer.length + 2 ≤ g → drainF ks f s = drainF ks g s := by
  intro f
  induction f with
  | zero => intro g s hf; omega
  | succ f ih =>
    intro g s hf hg
    cases g with
    | zero => omega
    | succ g =>
      cases hs : step ks s with
      | none => rw [drainF_succ, drainF_succ, hs]
      | some s2 =>
        rw [drainF_succ, drainF_succ, hs]
        dsimp only
        rcases step_dec hs with hlt | ⟨hbuf, herr⟩
        · exact ih g s2 (by omega) (by omega)
        · rw [drainF_of_stuck f (step_err herr),
              drainF_of_stuck g (step_err herr)]

theorem drain_eq_drainF {ks : Option KeySrc} {s : PState} {f : Nat}
    (h : s.buffer.length + 2 ≤ f) : drain ks s = drainF ks f s :=
  drainF_fuel _ _ _ (Nat.le_refl _) h

theorem drain_of_stuck {ks : Option KeySrc} {s : PState}
    (h : step ks s = none) : drain ks s = s :=
  drainF_of_stuck _ h

theorem drain_stuck_aux {ks : Option KeySrc} :
    ∀ f (s : PState), s.buffer.length + 2 ≤ f →
      step ks (drainF ks f s) = none := by
  intro f
  induction f with
  | zero => intro s hf; omega
  | succ f ih =>
    intro s hf
    cases hs : step ks s with
    | none => rw [drainF_succ, hs]; exact hs
    | some s2 =>
      rw [drainF_succ, hs]
      dsimp only
      rcases step_dec hs with hlt | ⟨hbuf, herr⟩
      · exact ih s2 (by omega)
      · rw [drainF_of_stuck f (step_err herr)]
        exact step_err herr

theorem drain_stuck {ks : Option KeySrc} (s : PState) :
    step ks (drain ks s) = none :=
  drain_stuck_aux _ s (Nat.le_refl _)

theorem drain_step {ks : Option KeySrc} {s s2 : PState}
    (h : step ks s = some s2) : drain ks s = drain ks s2 := by
  have e1 : drain ks s = drainF ks (s.buffer.length + 1) s2 := by
    show drainF ks (s.buffer.length + 1 + 1) s = _
    rw [drainF_succ, h]
  rcases step_dec h with hlt | ⟨hbuf, herr⟩
  · rw [e1]
    exact (drain_eq_drainF (by omega)).symm
  · rw [e1, drainF_of_stuck _ (step_err herr),
        drain_of_stuck (step_err herr)]

theorem drain_idem {ks : Option KeySrc} (s : PState) :
    drain ks (drain ks s) = drain ks s :=
  drain_of_stuck (drain_stuck s)

theorem drainF_append {ks : Option KeySrc} (b : List Nat) :
    ∀ f (s : PState), s.buffer.length + 2 ≤ f →
      drain ks (appendB b (drainF ks f s)) = drain ks (appendB b s) := by
  intro f
  induction f with
  | zero => intro s hf; omega
  | succ f ih =>
    intro s hf
    cases hs : step ks s with
    | none => rw [drainF_succ, hs]
    | some s2 =>
      rw [drainF_succ, hs]
      dsimp only
      have hr : drain ks (appendB b s) = drain ks (appendB b s2) :=
        drain_step (step_append b hs)
      rcases step_dec hs with hlt | ⟨hbuf, herr⟩
      · rw [ih s2 (by omega), hr]
      · rw [drainF_of_stuck f (step_err herr), hr]

theorem drain_append {ks : Option KeySrc} (b : List Nat) (s : PState) :
    drain ks (appendB b (drain ks s)) = drain ks (appendB b s) :=
  drainF_append b _ s (Nat.le_refl _)

theorem appendB_nil (s : PState) : appendB [] s = s := by
  simp [appendB]

theorem appendB_assoc (b c : List Nat) (s : PState) :
    appendB c (appendB b s) = appendB (b ++ c) s := by
  simp [appendB]

theorem chunksOfF_join :
    ∀ f n (bs : List Nat), bs.length ≤ f → (chunksOfF f n bs).flatten = bs := by
  intro f
  induction f with
  | zero =>
    intro n bs h
    have : bs = [] := List.eq_nil_of_length_eq_zero (by omega)
    rw [this]
    rfl
  | succ f ih =>
    intro n bs h
    by_cases hb : bs = []
    · rw [hb]
      rfl
    · unfold chunksOfF
      rw [if_neg hb, List.flatten_cons,
          ih n (bs.drop (max n 1)) (by rw [List.length_drop]; omega),
          List.take_append_drop]

theorem chunksOf_join (n : Nat) (bs : List Nat) :
    (chunksOf n bs).flatten = bs :=
  chunksOfF_join _ _ _ (Nat.le_refl _)

-- ## Parse composition lemmas

theorem parse_err {ks : Option KeySrc} {s : PState} (b : List Nat)
    (h : s.mode = .err) : parse ks s b = (false, s) := by
  simp [parse, h]

theorem parse_not_err {ks : Option KeySrc} {s : PState} (b : List Nat)
    (h : ¬ s.mode = .err) :
    parse ks s b = (decide ((drain ks (appendB b s)).mode ≠ .err),
      drain ks (appendB b s)) := by
  simp only [parse, if_neg h]

theorem drain_append_err {ks : Option KeySrc} {s : PState} (b : List Nat)
    (h : s.mode = .err) : drain ks (appendB b s) = appendB b s :=
  drain_of_stuck (step_err h)

theorem foldParse_chunks {ks : Option KeySrc} :
    ∀ (chunks : List (List Nat)) (s : PState), step ks s = none →
      (drain ks (appendB chunks.flatten s)).mode ≠ .err →
      foldParse ks s chunks = drain ks (appendB chunks.flatten s) := by
  intro chunks
  induction chunks with
  | nil =>
    intro s hstuck hne
    show s = drain ks (appendB [] s)
    rw [appendB_nil, drain_of_stuck hstuck]
  | cons c cs ih =>
    intro s hstuck hne
    rw [List.flatten_cons] at hne ⊢
    by_cases hm : s.mode = .err
    · exact absurd (by rw [drain_append_err _ hm]; exact hm) hne
    · have hchain : drain ks (appendB (c ++ cs.flatten) s) =
          drain ks (appendB cs.flatten (drain ks (appendB c s))) := by
        rw [← appendB_assoc, drain_append]
      by_cases hm1 : (drain ks (appendB c s)).mode = .err
      · exact absurd (by rw [hchain, drain_append_err _ hm1]; exact hm1) hne
      · have hne1 : (drain ks (appendB cs.flatten
            (drain ks (appendB c s)))).mode ≠ .err := by
          rw [← hchain]; exact hne
        have h2 := ih (drain ks (appendB c s)) (drain_stuck _) ?_
        · rw [hchain]
          rw [← h2]
          show List.foldl _ _ (c :: cs) = _
          rw [List.foldl_cons]
          congr 1
          rw [parse_not_err c hm]
        · exact hne1

theorem loadMoov_buffer (ks : Option KeySrc) (s : PState) (b : List Nat) :
    (loadMoovP ks s b).2.buffer = s.buffer := by
  unfold loadMoovP
  by_cases h : s.tracks.isSome
  · rw [if_pos h]
  · rw [if_neg h]
    cases loadGo ks (b.length + 1) b with
    | none => rfl
    | some v => cases v with | mk tracks prog => rfl

theorem runFile_eq {ks : Option KeySrc} {bytes : List Nat} (g : Nat)
    (hne : (drain ks
      (appendB bytes (loadMoovP ks initParser bytes).2)).mode ≠ .err) :
    runFile ks bytes g =
      drain ks (appendB bytes (loadMoovP ks initParser bytes).2) := by
  have hb : (loadMoovP ks initParser bytes).2.buffer = [] :=
    loadMoov_buffer ks initParser bytes
  have h2 : (drain ks (appendB (chunksOf g bytes).flatten
      (loadMoovP ks initParser bytes).2)).mode ≠ .err := by
    rw [chunksOf_join]; exact hne
  have h3 := foldParse_chunks (chunksOf g bytes) _ (step_of_nil hb) h2
  rw [chunksOf_join] at h3
  exact h3

-- ## Stream-info-once invariant

theorem countSI_append (a b : List Event) :
    countSI (a ++ b) = countSI a + countSI b :=
  List.countP_append _ a b

theorem deliverGo_SI (p : List Nat) :
    ∀ (l : List PendingSample) (evs : List Event),
      deliverGo p l = some evs → countSI evs = 0 := by
  intro l
  induction l with
  | nil =>
    intro evs h
    injection h with h2
    rw [← h2]
    rfl
  | cons s rest ih =>
    intro evs h
    unfold deliverGo at h
    by_cases hle : s.off + s.size ≤ p.length
    · rw [if_pos hle] at h
      cases he : resolveEnc p s <;> rw [he] at h <;> dsimp only at h
      · cases h
      · cases hd : deliverGo p rest <;> rw [hd] at h <;> dsimp only at h
        · cases h
        · rename_i ei evs2
          injection h with h2
          rw [← h2]
          show countSI (Event.sample _ _ _ :: evs2) = 0
          unfold countSI
          rw [List.countP_cons]
          have : countSI evs2 = 0 := ih evs2 hd
          unfold countSI at this
          rw [this]
          rfl
    · rw [if_neg hle] at h
      cases h

/-- The stream-info-once invariant: the event log holds exactly one
stream-info callback when the init segment has been parsed, none before. -/
def SIinv (s : PState) : Prop :=
  countSI s.events = if s.tracks.isSome then 1 else 0

theorem step_SI {ks : Option KeySrc} {s s2 : PState}
    (h : step ks s = some s2) (inv : SIinv s) : SIinv s2 := by
  unfold SIinv at inv ⊢
  unfold step at h
  cases hm : s.mode <;> rw [hm] at h <;> dsimp only at h
  case err => cases h
  case expectMdat pending =>
    cases hr : readBoxAt s.buffer <;> rw [hr] at h <;> dsimp only at h
    case needMore => cases h
    case malformed =>
      injection h with h2
      rw [← h2]
      exact inv
    case box t payload rest =>
      by_cases ht : t = cMDAT
      · rw [if_pos ht] at h
        cases hd : deliverGo payload pending <;> rw [hd] at h <;>
          dsimp only at h
        · injection h with h2
          rw [← h2]
          exact inv
        · rename_i evs
          injection h with h2
          rw [← h2]
          show countSI (s.events ++ evs) = if s.tracks.isSome then 1 else 0
          rw [countSI_append, deliverGo_SI payload pending evs hd]
          exact inv
      · rw [if_neg ht] at h
        injection h with h2
        rw [← h2]
        exact inv
  case scanning =>
    cases hr : readBoxAt s.buffer <;> rw [hr] at h <;> dsimp only at h
    case needMore => cases h
    case malformed =>
      injection h with h2
      rw [← h2]
      exact inv
    case box t payload rest =>
      by_cases htv : t = cMOOV
      · rw [if_pos htv] at h
        by_cases hts : s.tracks.isSome
        · rw [if_pos hts] at h
          injection h with h2
          rw [← h2]
          exact inv
        · rw [if_neg hts] at h
          cases hp : processMoov ks payload <;> rw [hp] at h <;>
            dsimp only at h
          · injection h with h2
            rw [← h2]
            exact inv
          · rename_i v
            cases v with
            | mk tracks prog =>
              dsimp only at h
              injection h with h2
              rw [← h2]
              show countSI (s.events ++ [Event.streamInfo tracks]) =
                if (some tracks).isSome then 1 else 0
              rw [countSI_append]
              rw [if_neg (by simpa using hts)] at inv
              rw [inv]
              rfl
      · rw [if_neg htv] at h
        by_cases htf : t = cMOOF
        · rw [if_pos htf] at h
          cases hts : s.tracks <;> rw [hts] at h <;> dsimp only at h
          · injection h with h2
            rw [← h2]
            exact inv
          · rename_i tracks
            cases hdm : decodeMoof tracks payload <;> rw [hdm] at h <;>
              dsimp only at h
            · injection h with h2
              rw [← h2]
              exact inv
            · injection h with h2
              rw [← h2]
              show countSI s.events = if (some tracks).isSome then 1 else 0
              rw [← hts]
              exact inv
        · rw [if_neg htf] at h
          by_cases htd : t = cMDAT ∧ s.progPending ≠ []
          · rw [if_pos htd] at h
            cases hd : deliverGo payload s.progPending <;> rw [hd] at h <;>
              dsimp only at h
            · injection h with h2
              rw [← h2]
              exact inv
            · rename_i evs
              injection h with h2
              rw [← h2]
              show countSI (s.events ++ evs) = if s.tracks.isSome then 1 else 0
              rw [countSI_append, deliverGo_SI payload s.progPending evs hd]
              exact inv
          · rw [if_neg htd] at h
            injection h with h2
            rw [← h2]
            exact inv

theorem drainF_SI {ks : Option KeySrc} :
    ∀ f (s : PState), SIinv s → SIinv (drainF ks f s) := by
  intro f
  induction f with
  | zero => intro s inv; exact inv
  | succ f ih =>
    intro s inv
    cases hs : step ks s with
    | none => rw [drainF_succ, hs]; exact inv
    | some s2 =>
      rw [drainF_succ, hs]
      exact ih s2 (step_SI hs inv)

theorem parse_SI {ks : Option KeySrc} {s : PState} (b : List Nat)
    (inv : SIinv s) : SIinv (parse ks s b).2 := by
  unfold parse
  by_cases h : s.mode = .err
  · rw [if_pos h]; exact inv
  · rw [if_neg h]
    exact drainF_SI _ _ inv

theorem flush_SI {s : PState} (inv : SIinv s) : SIinv (flushP s).2 := by
  unfold flushP
  by_cases h : s.mode = .err
  · rw [if_pos h]; exact inv
  · rw [if_neg h]; exact inv

theorem loadMoov_SI {ks : Option KeySrc} {s : PState} (b : List Nat)
    (inv : SIinv s) : SIinv (loadMoovP ks s b).2 := by
  unfold loadMoovP
  by_cases h : s.tracks.isSome
  · rw [if_pos h]; exact inv
  · rw [if_neg h]
    cases hl : loadGo ks (b.length + 1) b with
    | none => exact inv
    | some v =>
      cases v with
      | mk tracks prog =>
        unfold SIinv at inv ⊢
        show countSI (s.events ++ [Event.streamInfo tracks]) =
          if (some tracks).isSome then 1 else 0
        rw [countSI_append]
        rw [if_neg (by simpa using h)] at inv
        rw [inv]
        rfl

theorem execCmd_SI {ks : Option KeySrc} {s : PState} (c : Cmd)
    (inv : SIinv s) : SIinv (execCmd ks s c) := by
  cases c with
  | parseBytes b => exact parse_SI b inv
  | flush => exact flush_SI inv
  | loadMoov b => exact loadMoov_SI b inv

theorem foldCmds_SI {ks : Option KeySrc} :
    ∀ (cmds : List Cmd) (s : PState), SIinv s →
      SIinv (cmds.foldl (execCmd ks) s) := by
  intro cmds
  induction cmds with
  | nil => intro s inv; exact inv
  | cons c cs ih =>
    intro s inv
    rw [List.foldl_cons]
    exact ih _ (execCmd_SI c inv)

theorem runCmds_SI (ks : Option KeySrc) (cmds : List Cmd) :
    SIinv (runCmds ks cmds) :=
  foldCmds_SI cmds initParser (by rfl)

-- ## Claim theorems

set_option maxRecDepth 1000000

/-- C1: for every parser state at a `Parse` boundary (the engine stuck,
awaiting input) and every way of splitting further input into chunks that
concatenate back to the same byte stream, driving `Parse` once per chunk
produces exactly the state — and hence the identical delivered sample
sequence — of parsing the stream in one call, provided the one-call parse
does not hit the terminal error; in particular the fragmented two-track
fixture yields exactly 2 streams and 201 samples at 1-byte, 512-byte and
larger-than-file append granularities. -/
theorem c1_chunk_invariance :
    (∀ (ks : Option KeySrc) (s : PState) (chunks : List (List Nat)),
        step ks s = none →
        (drain ks (appendB chunks.flatten s)).mode ≠ .err →
        foldParse ks s chunks = drain ks (appendB chunks.flatten s)) ∧
    (numStreams (runFile none fxFragAV 1) = 2 ∧
     numSamples (runFile none fxFragAV 1) = 201) ∧
    (numStreams (runFile none fxFragAV 512) = 2 ∧
     numSamples (runFile none fxFragAV 512) = 201) ∧
    (numStreams (runFile none fxFragAV 300000) = 2 ∧
     numSamples (runFile none fxFragAV 300000) = 201) := by
  have hne : (drain none (appendB fxFragAV
      (loadMoovP none initParser fxFragAV).2)).mode ≠ .err := by decide
  refine ⟨fun ks s chunks => foldParse_chunks chunks s,
    ⟨?_, ?_⟩, ⟨?_, ?_⟩, ⟨?_, ?_⟩⟩ <;>
    rw [runFile_eq _ hne] <;> decide

/-- C1 witness: the chunk-invariance component applied to a fresh parser
and one concrete chunk list. -/
theorem c1_chunk_invariance_witness :
    step (none : Option KeySrc) initParser = none ∧
    (drain none (appendB ([fxFtyp, fxMoovAV].flatten) initParser)).mode ≠
      .err ∧
    foldParse none initParser [fxFtyp, fxMoovAV] =
      drain none (appendB ([fxFtyp, fxMoovAV].flatten) initParser) :=
  ⟨by decide, by decide,
   c1_chunk_invariance.1 none initParser [fxFtyp, fxMoovAV]
     (by decide) (by decide)⟩

/-- C2: the Track/Stream Info Builder resolves pixel aspect ratio by the
exact three-way precedence (pasp box first, then non-zero codec-config
sample-aspect fields, then the 1/1 default), and the three fixtures yield
pixel width/height 8/9 (pasp), 8/9 (codec-config) and 1/1 (zero fields) on
their video track. -/
theorem c2_pixel_aspect :
    (∀ (sarW sarH h v : Nat),
        resolvePixelAspect (some (h, v)) sarW sarH = (h, v)) ∧
    (∀ (sarW sarH : Nat), sarW ≠ 0 → sarH ≠ 0 →
        resolvePixelAspect none sarW sarH = (sarW, sarH)) ∧
    (∀ (sarW sarH : Nat), sarW = 0 ∨ sarH = 0 →
        resolvePixelAspect none sarW sarH = (1, 1)) ∧
    (trackPW (runFile none fxPasp 512) 1 = 8 ∧
     trackPH (runFile none fxPasp 512) 1 = 9) ∧
    (trackPW (runFile none fxNoPasp 512) 1 = 8 ∧
     trackPH (runFile none fxNoPasp 512) 1 = 9) ∧
    (trackPW (runFile none fxFragAV 512) 1 = 1 ∧
     trackPH (runFile none fxFragAV 512) 1 = 1) := by
  refine ⟨fun sarW sarH h v => rfl, fun sarW sarH hw hh => ?_,
    fun sarW sarH hz => ?_, by decide, by decide, by decide⟩
  · unfold resolvePixelAspect
    rw [if_pos ⟨hw, hh⟩]
  · unfold resolvePixelAspect
    rw [if_neg ?_]
    rintro ⟨a, b⟩
    rcases hz with hz | hz
    · exact a hz
    · exact b hz

/-- C2 witness: the precedence components at concrete aspect values. -/
theorem c2_pixel_aspect_witness :
    resolvePixelAspect (some (8, 9)) 0 0 = (8, 9) ∧
    ((2 : Nat) ≠ 0 ∧ (3 : Nat) ≠ 0 ∧
      resolvePixelAspect none 2 3 = (2, 3)) ∧
    (((0 : Nat) = 0 ∨ (3 : Nat) = 0) ∧
      resolvePixelAspect none 0 3 = (1, 1)) :=
  ⟨c2_pixel_aspect.1 0 0 8 9,
   ⟨by decide, by decide, c2_pixel_aspect.2.1 2 3 (by decide) (by decide)⟩,
   ⟨by decide, c2_pixel_aspect.2.2.1 0 3 (Or.inl rfl)⟩⟩

/-- C3: flushing mid-fragment (after 2 streams and 101 samples were
delivered from the prefix) succeeds, retains the already-parsed track
descriptors while returning to the scanning mode, and re-feeding the whole
file from byte offset 0 delivers the full 201 samples again. -/
theorem c3_flush_midfragment :
    numStreams flushTestMid = 2 ∧
    numSamples flushTestMid = 101 ∧
    (flushP flushTestMid).1 = true ∧
    (flushP flushTestMid).2.tracks = flushTestMid.tracks ∧
    (flushP flushTestMid).2.mode = .scanning ∧
    numSamples flushTestAfter = numSamples flushTestMid + 201 := by
  refine ⟨by decide, by decide, by decide, by decide, by decide, by decide⟩

/-- C4: after a full parse and a flush, a byte stream beginning directly at
a fragment boundary (no init segment at all) parses to completion — the
engine ends scanning, all 201 fragment samples are redelivered, and no new
stream-info callback (hence no new moov) was needed. -/
theorem c4_no_moov_after_flush :
    (flushP noMoovFull).1 = true ∧
    noMoovResume.mode = .scanning ∧
    numSamples noMoovResume = numSamples noMoovFull + 201 ∧
    countSI noMoovResume.events = 1 := by
  refine ⟨by decide, by decide, by decide, by decide⟩

/-- C5: over every input history of a parser instance (any interleaving of
Parse, Flush and LoadMoov operations), the stream-info callback count is
exactly one once the init segment has parsed and zero before — it never
fires twice; concretely, the trailing-moov fixture (moov bytes appearing
after the media data, and again through Parse after LoadMoov) and the
flush-then-refeed history each show exactly one stream-info callback. -/
theorem c5_streaminfo_once :
    (∀ (ks : Option KeySrc) (cmds : List Cmd),
        countSI (runCmds ks cmds).events =
          if (runCmds ks cmds).tracks.isSome then 1 else 0) ∧
    countSI (runFile none fxTrail 1024).events = 1 ∧
    numStreams (runFile none fxTrail 1024) = 2 ∧
    numSamples (runFile none fxTrail 1024) = 201 ∧
    countSI flushTestAfter.events = 1 := by
  refine ⟨fun ks cmds => runCmds_SI ks cmds, by decide, by decide,
    by decide, by decide⟩

/-- C6: parsing the protected fixture with no key source succeeds
structurally (1 stream, 82 samples indexed, engine ends scanning), the
track carries non-empty opaque EME init data, no sample is reported
decrypted, and the stream-info callback fires from the init-segment bytes
alone, before any fragment bytes. -/
theorem c6_cenc_without_keysource :
    numStreams (runFile none fxCencAux 512) = 1 ∧
    numSamples (runFile none fxCencAux 512) = 82 ∧
    (runFile none fxCencAux 512).mode = .scanning ∧
    (trackEme (runFile none fxCencAux 512) 1).length = 8 ∧
    ((sampleEvents (runFile none fxCencAux 512).events).all
      (fun e => match e with
        | .sample _ _ d => !d
        | _ => true)) = true ∧
    numStreams cencInitOnly = 1 ∧
    countSI cencInitOnly.events = 1 ∧
    numSamples cencInitOnly = 0 := by
  refine ⟨by decide, by decide, by decide, by decide, by decide, by decide,
    by decide, by decide⟩

/-- C7: with a key source whose FetchKeys succeeds and whose GetKey
resolves the declared key identifier to the key bytes, both protected
fixtures — the inline sample-encryption form and the auxiliary-info-in-mdat
form — deliver 1 stream and exactly 82 samples whose payloads are the
decrypted plaintexts, and the two forms deliver identical sample
sequences. -/
theorem c7_cenc_with_keysource :
    numStreams cencAuxKeyRun = 1 ∧
    numSamples cencAuxKeyRun = 82 ∧
    numStreams cencSencKeyRun = 1 ∧
    numSamples cencSencKeyRun = 82 ∧
    sampleEvents cencAuxKeyRun.events = cencExpectedEvents ∧
    sampleEvents cencSencKeyRun.events = cencExpectedEvents ∧
    sampleEvents cencAuxKeyRun.events = sampleEvents cencSencKeyRun.events := by
  refine ⟨by decide, by decide, by decide, by decide, by decide, by decide,
    by decide⟩

/-- C8: a container whose completed moov declares a child box larger than
the parent's remaining bytes makes `Parse` return failure and leaves the
parser in the terminal error state, in which every subsequent `Parse` call
on the same instance is rejected with no state change. -/
theorem c8_malformed_terminal :
    (parse none initParser fxBad).1 = false ∧
    (parse none initParser fxBad).2.mode = .err ∧
    (∀ (ks : Option KeySrc) (s : PState) (b : List Nat), s.mode = .err →
        parse ks s b = (false, s)) :=
  ⟨by decide, by decide, fun _ks _s b h => parse_err b h⟩

/-- C8 witness: the rejection component applied to the concrete
post-failure state. -/
theorem c8_malformed_terminal_witness :
    (parse none initParser fxBad).2.mode = .err ∧
    parse none (parse none initParser fxBad).2 [0, 1, 2] =
      (false, (parse none initParser fxBad).2) :=
  ⟨by decide,
   c8_malformed_terminal.2.2 none (parse none initParser fxBad).2 [0, 1, 2]
     (by decide)⟩

/-- C9: the progressive (non-fragmented) fixture is parsed by the same
state machine — its whole sample table becomes the one eager fragment right
after the init segment parses — and yields exactly the same counts as its
fragmented equivalent: 2 streams, 201 samples. -/
theorem c9_progressive :
    numStreams (runFile none fxProg 512) = 2 ∧
    numSamples (runFile none fxProg 512) = 201 ∧
    (runFile none fxProg 512).mode = .scanning ∧
    numStreams (runFile none fxFragAV 512) = 2 ∧
    numSamples (runFile none fxFragAV 512) = 201 := by
  refine ⟨by decide, by decide, by decide, by decide, by decide⟩

/-- C10: after the moov is pre-loaded through the init-segment-only entry
point (one stream-info callback, no samples yet), appending the entire file
from byte offset 0 — so the moov bytes pass through Parse a second time —
does not duplicate deliveries: 2 streams, exactly 201 samples (not 402),
and still exactly one stream-info callback. -/
theorem c10_loadmoov_no_duplication :
    (loadMoovP none initParser fxFragAV).1 = true ∧
    countSI (loadMoovP none initParser fxFragAV).2.events = 1 ∧
    numSamples (loadMoovP none initParser fxFragAV).2 = 0 ∧
    numStreams (runFile none fxFragAV 512) = 2 ∧
    numSamples (runFile none fxFragAV 512) = 201 ∧
    countSI (runFile none fxFragAV 512).events = 1 := by
  refine ⟨by decide, by decide, by decide, by decide, by decide, by decide⟩

end MP4Model
